import Mathlib

/-!
# Verification of the pandas DataFrame alignment / combine / update core

Shallow embedding of the parts of `pandas/core/frame.py` that the claims
touch: column selection (`__getitem__`, `_getitem_bool_array`,
`_getitem_frame`), alignment, and the `combine` / `combine_first` / `update`
family.

Labels are natural numbers, cell values are `Option ℚ` (with `none` playing
the role of NA/NaN), and each column carries an explicit storage dtype from a
small closed lattice, mirroring the spec's closed set of storage kinds.
Helpers from collaborating modules that are not part of the source under
review (`find_common_type`, `maybe_downcast_to_dtype`, `check_bool_indexer`,
`NDFrame.align`, `NDFrame.where`) are modelled from the specification and
marked as such in their doc comments.
-/

namespace PandasFrame

/-- The closed set of column storage kinds (spec §9: numeric/boolean/object
kinds with type promotion a total order over them). -/
inductive DType where
  | dbool
  | dint
  | dfloat
  | dobj
deriving DecidableEq, Repr

/-- A cell: `none` is NA/NaN, `some q` a concrete value. -/
abbrev Cell := Option ℚ

/-- A typed column buffer: a dtype tag plus the cell values. -/
structure Column where
  dtype : DType
  values : List Cell
deriving DecidableEq, Repr

/-- A table: an ordered row label index plus an ordered association list of
column label / column buffer pairs (labels may repeat, as in pandas). -/
structure DataFrame where
  index : List ℕ
  cols : List (ℕ × Column)
deriving DecidableEq, Repr

/-- The ordered column labels of a frame. -/
def colLabels (df : DataFrame) : List ℕ :=
  df.cols.map Prod.fst

/-- Well-formedness of a frame (spec §3 Table invariant: every column buffer
has exactly one value per row label), as a decidable boolean. -/
def wfB (df : DataFrame) : Bool :=
  df.cols.all (fun p => p.2.values.length = df.index.length)

/-- List element at a position with a default (out of range gives `dflt`). -/
def listAt {α : Type} (dflt : α) : List α → ℕ → α
  | [], _ => dflt
  | a :: _, 0 => a
  | _ :: rest, n + 1 => listAt dflt rest n

/-- Position of the first occurrence of a label, `Index.get_loc` for a unique
label / the first hit used by a reindexing lookup. -/
def firstIdx : List ℕ → ℕ → Option ℕ
  | [], _ => none
  | a :: rest, x => if a = x then some 0 else (firstIdx rest x).map (fun i => i + 1)

/-- All positions occupied by a label, `Index.get_loc` for a possibly
repeated label (returns every matching position). -/
def positionsOf : List ℕ → ℕ → List ℕ
  | [], _ => []
  | c :: rest, k =>
    if c = k then 0 :: (positionsOf rest k).map (fun i => i + 1)
    else (positionsOf rest k).map (fun i => i + 1)

/-- First column buffer stored under a label (pandas `frame[col]` for a
unique column label). -/
def lookupCol : List (ℕ × Column) → ℕ → Option Column
  | [], _ => none
  | (c, col) :: rest, k => if c = k then some col else lookupCol rest k

/-- The pair stored at a column position. -/
def nthPair : List (ℕ × Column) → ℕ → Option (ℕ × Column)
  | [], _ => none
  | p :: _, 0 => some p
  | _ :: rest, n + 1 => nthPair rest n

/-- An all-NA float column of the given length (what reindexing fills in for
a missing column label). -/
def emptyCol (n : ℕ) : Column :=
  ⟨DType.dfloat, List.replicate n none⟩

/-- `df[c]` as a total function: the first column stored under label `c`,
defaulting to an all-NA column when absent. -/
def getColD (df : DataFrame) (c : ℕ) : Column :=
  (lookupCol df.cols c).getD (emptyCol df.index.length)

/-- `Index.get_indexer`: for each target label its first position in `self`,
or `-1` when absent. -/
def get_indexer (self target : List ℕ) : List Int :=
  target.map (fun l =>
    match firstIdx self l with
    | some i => (i : Int)
    | none => -1)

/-- Reindex a column's values from one row index onto another: each new label
takes the value at the label's first position in the old index, labels absent
from the old index become NA. -/
def reindexVals (oldIdx : List ℕ) (vals : List Cell) (newIdx : List ℕ) : List Cell :=
  newIdx.map (fun l =>
    match firstIdx oldIdx l with
    | some i => listAt none vals i
    | none => none)

/-- The column a reindexed frame stores under a label: the existing column
reindexed on rows, or an all-NA float column for a label the frame lacks. -/
def reindexColAt (df : DataFrame) (newIdx : List ℕ) (c : ℕ) : Column :=
  match lookupCol df.cols c with
  | some col => ⟨col.dtype, reindexVals df.index col.values newIdx⟩
  | none => ⟨DType.dfloat, newIdx.map (fun _ => (none : Cell))⟩

/-- Reindex a frame onto a new row index and a new column label list
(`DataFrame.reindex` / `reindex_like`): existing columns are reindexed on
rows, missing column labels materialize as all-NA float columns. -/
def reindexTo (df : DataFrame) (newIdx : List ℕ) (newCols : List ℕ) : DataFrame :=
  ⟨newIdx, newCols.map (fun c => (c, reindexColAt df newIdx c))⟩

/-- Insert into a ≤-sorted list keeping it sorted. -/
def insSorted (x : ℕ) : List ℕ → List ℕ
  | [] => [x]
  | a :: rest => if x ≤ a then x :: a :: rest else a :: insSorted x rest

/-- Insertion sort on labels. -/
def sortNat : List ℕ → List ℕ
  | [] => []
  | a :: rest => insSorted a (sortNat rest)

/-- `Index.union` as used by outer alignment: identical indexes are returned
unchanged (the fast path), otherwise the union of the two label sets sorted
ascending, each label once for unique inputs. -/
def unionIndex (a b : List ℕ) : List ℕ :=
  if a = b then a else sortNat (a ++ b.filter (fun x => decide (x ∉ a)))

/-- Modelled from the spec: `NDFrame.align` with the default outer join lives
in `generic.py`, outside the source under review.  Spec §4.3: the outer
result index per axis is the sorted union (unchanged when the two indexes are
equal), and both operands are reindexed onto it. -/
def alignOuter (a b : DataFrame) : DataFrame × DataFrame :=
  let ri := unionIndex a.index b.index
  let ci := unionIndex (colLabels a) (colLabels b)
  (reindexTo a ri ci, reindexTo b ri ci)

/-- `DataFrame.empty`: true when either axis has length zero. -/
def isEmpty (df : DataFrame) : Bool :=
  df.index.isEmpty || df.cols.isEmpty

/-- `isna(col).all()`: every cell of the column is NA. -/
def allNA (col : Column) : Bool :=
  col.values.all (fun v => v.isNone)

/-- Numeric rank giving the promotion order of the storage kinds. -/
def dtypeRank : DType → ℕ
  | DType.dbool => 0
  | DType.dint => 1
  | DType.dfloat => 2
  | DType.dobj => 3

/-- Modelled from the spec: `find_common_type` (pandas.core.dtypes.cast, not
under the source tree): the wider numeric type wins and any non-numeric
operand forces the object kind, i.e. the maximum in the promotion order. -/
def findCommonType (a b : DType) : DType :=
  if dtypeRank a ≤ dtypeRank b then b else a

/-- `Series.astype`: retag the buffer with a new dtype (only widening casts
are taken through this total version). -/
def astype (col : Column) (d : DType) : Column :=
  ⟨d, col.values⟩

/-- `Series.astype` as the fallible call used when promoting an all-NA column
(`frame.py` combine, missing-column branch): casting NA values to the integer
kind raises `ValueError`, modelled as `none`. -/
def astypeOpt (col : Column) (d : DType) : Option Column :=
  if d = DType.dint ∧ col.values.any (fun v => v.isNone) = true then none
  else some (astype col d)

/-- Modelled from the spec: `maybe_downcast_to_dtype`
(pandas.core.dtypes.cast, not under the source tree): cast the result back to
the target kind only when no precision is lost — for a float buffer and an
integer target this needs every cell non-NA with an integral value. -/
def maybeDowncast (col : Column) (target : DType) : Column :=
  if col.dtype = target then col
  else
    match col.dtype, target with
    | DType.dfloat, DType.dint =>
      if col.values.all (fun v =>
          match v with
          | some q => decide (q.den = 1)
          | none => false)
      then ⟨DType.dint, col.values⟩
      else col
    | _, _ => col

/-- One iteration of the `combine` column loop (`frame.py` 5056–5098): keep
the left column verbatim when `overwrite` is off and the right side is all
NA; otherwise fill NA with the fill value if given, promote (columns the left
frame lacks instead try an `astype` to the right dtype), apply `func`, and
attempt the downcast back to the left column's pre-promotion dtype. -/
def combineCol (selfDf thisDf otherDf : DataFrame)
    (func : ℕ → Column → Column → Column)
    (fillValue : Option ℚ) (overwrite : Bool) (col : ℕ) : Column :=
  let series := getColD thisDf col
  let otherSeries := getColD otherDf col
  let thisDtype := series.dtype
  let otherDtype := otherSeries.dtype
  if !overwrite && allNA otherSeries then series
  else
    let series :=
      match fillValue with
      | some fv => ⟨series.dtype, series.values.map (fun v => some (v.getD fv))⟩
      | none => series
    let otherSeries :=
      match fillValue with
      | some fv => ⟨otherSeries.dtype, otherSeries.values.map (fun v => some (v.getD fv))⟩
      | none => otherSeries
    let pair :=
      if decide (col ∈ colLabels selfDf) then
        let nd := findCommonType thisDtype otherDtype
        (if thisDtype = nd then series else astype series nd,
         if otherDtype = nd then otherSeries else astype otherSeries nd)
      else
        ((astypeOpt series otherDtype).getD series, otherSeries)
    let arr := func col pair.1 pair.2
    maybeDowncast arr thisDtype

/-- `DataFrame.combine` (`frame.py` 5041–5102): outer-align both frames, take
the two empty-frame shortcuts, then rebuild the frame column by column over
the union of the column labels via `combineCol`. -/
def combine (self other : DataFrame) (func : ℕ → Column → Column → Column)
    (fillValue : Option ℚ) (overwrite : Bool) : DataFrame :=
  let otherIdxLen := other.index.length
  let pr := alignOuter self other
  let thisDf := pr.1
  let otherDf := pr.2
  let newIndex := thisDf.index
  if isEmpty otherDf && decide (newIndex.length = self.index.length) then self
  else if isEmpty self && decide (otherDf.index.length = otherIdxLen) then otherDf
  else
    let newColumns := unionIndex (colLabels thisDf) (colLabels otherDf)
    ⟨newIndex, newColumns.map (fun col =>
      (col, combineCol self thisDf otherDf func fillValue overwrite col))⟩

/-- The combiner closure of `DataFrame.combine_first` (`frame.py` 5164–5177):
columns absent from the calling frame pass the right values through, the rest
select the right value exactly where the left is NA. -/
def combineFirstCombiner (selfDf : DataFrame) (col : ℕ) (x y : Column) : Column :=
  if decide (col ∈ colLabels selfDf) then
    ⟨findCommonType x.dtype y.dtype,
     (x.values.zip y.values).map (fun p => if p.1.isNone then p.2 else p.1)⟩
  else y

/-- `DataFrame.combine_first` (`frame.py` 5104–5179): `combine` with the
NA-filling combiner and `overwrite=False`. -/
def combine_first (self other : DataFrame) : DataFrame :=
  combine self other (combineFirstCombiner self) none false

/-- The `errors` parameter of `DataFrame.update`. -/
inductive UpdateErrors where
  | ignore
  | raise
deriving DecidableEq, Repr

/-- Replace the first column stored under a label. -/
def setColFirst : List (ℕ × Column) → ℕ → Column → List (ℕ × Column)
  | [], _, _ => []
  | (c, old) :: rest, k, newc =>
    if c = k then (k, newc) :: rest else (c, old) :: setColFirst rest k newc

/-- `expressions.where(mask, this, that)`: elementwise select `this` where
the mask holds, else `that`. -/
def whereVals (mask : List Bool) (a b : List Cell) : List Cell :=
  (mask.zip (a.zip b)).map (fun p => if p.1 then p.2.1 else p.2.2)

/-- The per-column mask computation of `DataFrame.update` (`frame.py`
5312–5325): with a filter function the mask is `~filter_func(this) |
isna(that)` and the overlap check is skipped; otherwise `errors='raise'`
fails when any position is non-NA on both sides, and the mask is `isna(that)`
under `overwrite` and `notna(this)` otherwise. -/
def updateMask (filterFunc : Option (List Cell → List Bool))
    (errors : UpdateErrors) (overwrite : Bool)
    (this that : List Cell) : Except String (List Bool) :=
  match filterFunc with
  | some f => Except.ok (((f this).zip that).map (fun p => !p.1 || p.2.isNone))
  | none =>
    match errors with
    | UpdateErrors.raise =>
      if (that.zip this).any (fun p => p.1.isSome && p.2.isSome) then
        Except.error "Data overlaps."
      else
        Except.ok (if overwrite then that.map (fun v => v.isNone)
                   else this.map (fun v => v.isSome))
    | UpdateErrors.ignore =>
      Except.ok (if overwrite then that.map (fun v => v.isNone)
                 else this.map (fun v => v.isSome))

/-- The in-place write of one `update` iteration (`frame.py` 5327–5331): skip
the assignment when the mask is all-true, else set the column to
`where(mask, this, that)`. -/
def updateStep (self other : DataFrame) (col : ℕ) (mask : List Bool) : DataFrame :=
  if mask.all (fun b => b) then self
  else ⟨self.index,
        setColFirst self.cols col
          ⟨findCommonType (getColD self col).dtype (getColD other col).dtype,
           whereVals mask (getColD self col).values (getColD other col).values⟩⟩

/-- The column loop of `DataFrame.update` (`frame.py` 5309–5331): for each
column of the left frame compute the mask (possibly failing), then perform
the in-place write for that column. -/
def updateLoop (labels : List ℕ) (self other : DataFrame) (overwrite : Bool)
    (filterFunc : Option (List Cell → List Bool)) (errors : UpdateErrors) :
    Except String DataFrame :=
  match labels with
  | [] => Except.ok self
  | col :: rest =>
    match updateMask filterFunc errors overwrite
        (getColD self col).values (getColD other col).values with
    | Except.error e => Except.error e
    | Except.ok mask =>
      updateLoop rest (updateStep self other col mask) other overwrite filterFunc errors

/-- `DataFrame.update` (`frame.py` 5183–5331): left join only — the other
frame is reindexed onto the caller's row index and column labels, then the
caller's columns are updated in sequence. -/
def update (self other : DataFrame) (overwrite : Bool)
    (filterFunc : Option (List Cell → List Bool)) (errors : UpdateErrors) :
    Except String DataFrame :=
  let other2 := reindexTo other self.index (colLabels self)
  updateLoop (colLabels self) self other2 overwrite filterFunc errors

/-- Modelled from the spec: the inner-join result index of
`NDFrame.align`/`Index.join` (in `generic.py`/`indexes/base.py`, outside the
source under review).  Spec §4.3: the intersection ordered as the labels
occur in the left index — computed here through `get_indexer` against the
right index, keeping the left labels that resolve to a position. -/
def alignInnerIndex (a b : DataFrame) : List ℕ :=
  (a.index.zip (get_indexer b.index a.index)).filterMap
    (fun p => if p.2 = -1 then none else some p.1)

/-- The result of column selection: a single column (auto-squeeze) or a
narrower frame. -/
inductive GetResult where
  | series (idx : List ℕ) (col : Column)
  | frame (df : DataFrame)
deriving DecidableEq, Repr

/-- `frame[...]` columns taken at explicit positions (`DataFrame._take` on
the column axis). -/
def takeColsAt (df : DataFrame) (ps : List ℕ) : DataFrame :=
  ⟨df.index, ps.filterMap (nthPair df.cols)⟩

/-- `DataFrame.__getitem__` for a scalar key on a single-level column axis
(`frame.py` 2718–2775): the unique-and-present shortcut returns the cached
column; otherwise `get_loc` resolves every matching position (`KeyError` when
none), the matching columns are taken, and a single-column result is squeezed
back into the column itself. -/
def getitemScalar (df : DataFrame) (key : ℕ) : Except String GetResult :=
  if (colLabels df).Nodup ∧ key ∈ colLabels df then
    Except.ok (GetResult.series df.index (getColD df key))
  else
    let locs := positionsOf (colLabels df) key
    if locs.isEmpty then Except.error "KeyError"
    else
      let data := takeColsAt df locs
      if data.cols.length = 1 then
        Except.ok (GetResult.series data.index (getColD data key))
      else Except.ok (GetResult.frame data)

/-- Row positions holding `true` in a boolean mask, in original order. -/
def truePositions : List Bool → List ℕ
  | [] => []
  | b :: rest =>
    if b then 0 :: (truePositions rest).map (fun i => i + 1)
    else (truePositions rest).map (fun i => i + 1)

/-- `DataFrame._take` on the row axis at explicit positions. -/
def takeRows (df : DataFrame) (ps : List ℕ) : DataFrame :=
  ⟨ps.map (listAt 0 df.index),
   df.cols.map (fun p => (p.1, ⟨p.2.dtype, ps.map (listAt none p.2.values)⟩))⟩

/-- A boolean row-selection key: either a bare vector or a Series carrying
its own label index. -/
inductive BoolKey where
  | bare (bs : List Bool)
  | labeled (idx : List ℕ) (bs : List Bool)
deriving DecidableEq, Repr

/-- Modelled from the spec: `check_bool_indexer` (pandas.core.indexing, not
under the source tree) reindexes a labeled boolean key onto the axis index
and fails when any axis label is missing from the key (the reindexed cell
would be NA). -/
def reindexBoolKey (idx : List ℕ) (bs : List Bool) (target : List ℕ) :
    Option (List Bool) :=
  if target.all (fun l => decide (l ∈ idx)) then
    some (target.map (fun l =>
      match firstIdx idx l with
      | some i => listAt false bs i
      | none => false))
  else none

/-- `DataFrame._getitem_bool_array` (`frame.py` 2777–2794): a bare vector
must match the axis length exactly (`Item wrong length`), a labeled key whose
index differs from the frame's is first reindexed (unalignable labels fail),
and the surviving mask selects the rows at its true positions. -/
def getitemBoolArray (df : DataFrame) (key : BoolKey) : Except String DataFrame :=
  match key with
  | BoolKey.bare bs =>
    if bs.length ≠ df.index.length then Except.error "Item wrong length"
    else Except.ok (takeRows df (truePositions bs))
  | BoolKey.labeled idx bs =>
    if idx = df.index then Except.ok (takeRows df (truePositions bs))
    else
      match reindexBoolKey idx bs df.index with
      | some bs2 => Except.ok (takeRows df (truePositions bs2))
      | none => Except.error "Unalignable boolean Series provided as indexer"

/-- `key.values.size` of a frame used as selector: total element count. -/
def frameSize (df : DataFrame) : ℕ :=
  df.index.length * df.cols.length

/-- Modelled from the spec: `is_bool_dtype(key.values)` — the consolidated
values of the selector frame are boolean exactly when every column is
boolean-typed. -/
def frameIsBool (df : DataFrame) : Bool :=
  df.cols.all (fun p => p.2.dtype = DType.dbool)

/-- Modelled from the spec: `NDFrame.where` (in `generic.py`, outside the
source under review): keep a value where the key frame holds a true cell at
the same row and column label, else NA. -/
def whereDF (self key : DataFrame) : DataFrame :=
  ⟨self.index, self.cols.map (fun p =>
    (p.1, ⟨p.2.dtype, (self.index.zip p.2.values).map (fun rc =>
      match lookupCol key.cols p.1 with
      | some kc =>
        match firstIdx key.index rc.1 with
        | some i => if listAt none kc.values i = some 1 then rc.2 else none
        | none => none
      | none => none)⟩))⟩

/-- `DataFrame._getitem_frame` (`frame.py` 2832–2835): a selector frame with
at least one element must be all-boolean, else `ValueError`; the surviving
key is routed to the `where` path. -/
def getitemFrame (self key : DataFrame) : Except String DataFrame :=
  if frameSize key ≠ 0 ∧ frameIsBool key = false then
    Except.error "Must pass DataFrame with boolean values only"
  else Except.ok (whereDF self key)

/-! ## Basic list and lookup lemmas -/

/-- Pointwise equal functions map lists equally. -/
lemma mapCongrMem {α β : Type} (l : List α) (f g : α → β)
    (h : ∀ x ∈ l, f x = g x) : l.map f = l.map g := by
  induction l with
  | nil => rfl
  | cons a rest ih =>
    simp only [List.map_cons]
    rw [h a (List.mem_cons_self a rest), ih (fun x hx => h x (List.mem_cons_of_mem a hx))]

lemma listAt_nil {α : Type} (dflt : α) (i : ℕ) : listAt dflt ([] : List α) i = dflt := by
  cases i <;> rfl

lemma firstIdx_none_iff (l : List ℕ) (x : ℕ) : firstIdx l x = none ↔ x ∉ l := by
  induction l with
  | nil => simp [firstIdx]
  | cons a rest ih =>
    by_cases h : a = x
    · simp [firstIdx, h]
    · simp only [firstIdx, if_neg h, Option.map_eq_none', ih, List.mem_cons]
      constructor
      · intro hr hor
        rcases hor with h1 | h2
        · exact h h1.symm
        · exact hr h2
      · intro hn h2
        exact hn (Or.inr h2)

lemma firstIdx_some_of_mem (l : List ℕ) (x : ℕ) (h : x ∈ l) :
    ∃ i, firstIdx l x = some i := by
  cases hf : firstIdx l x with
  | none => exact absurd ((firstIdx_none_iff l x).mp hf) (by simpa using h)
  | some i => exact ⟨i, rfl⟩

/-- Looking every label of a Nodup index up in itself reproduces the stored
values: the self-reindex identity shared by value and boolean reindexing. -/
lemma map_firstIdx_self {α : Type} (dflt : α) :
    ∀ (idx : List ℕ) (vals : List α), idx.Nodup → vals.length = idx.length →
      (idx.map (fun l =>
        match firstIdx idx l with
        | some i => listAt dflt vals i
        | none => dflt)) = vals := by
  intro idx
  induction idx with
  | nil =>
    intro vals _ hlen
    cases vals with
    | nil => rfl
    | cons v vt => simp at hlen
  | cons a rest ih =>
    intro vals hnd hlen
    cases vals with
    | nil => simp at hlen
    | cons v vt =>
      have hnd2 := List.nodup_cons.mp hnd
      have hpt : ∀ l ∈ rest,
          (match firstIdx (a :: rest) l with
           | some i => listAt dflt (v :: vt) i
           | none => dflt) =
          (match firstIdx rest l with
           | some i => listAt dflt vt i
           | none => dflt) := by
        intro l hl
        have hne : a ≠ l := fun he => hnd2.1 (he ▸ hl)
        cases hf : firstIdx rest l with
        | none => simp [firstIdx, if_neg hne, hf]
        | some i => simp [firstIdx, if_neg hne, hf, listAt]
      simp only [List.map_cons, List.cons.injEq]
      refine ⟨by simp [firstIdx, listAt], ?_⟩
      rw [mapCongrMem _ _ _ hpt]
      exact ih vt hnd2.2 (by simpa using hlen)

/-! ## Sorted-union lemmas -/

lemma insSorted_perm (x : ℕ) (l : List ℕ) : (insSorted x l).Perm (x :: l) := by
  induction l with
  | nil => simp [insSorted]
  | cons a rest ih =>
    by_cases h : x ≤ a
    · simp [insSorted, h]
    · simp only [insSorted, if_neg h]
      exact (ih.cons a).trans (List.Perm.swap x a rest)

lemma sortNat_perm (l : List ℕ) : (sortNat l).Perm l := by
  induction l with
  | nil => simp [sortNat]
  | cons a rest ih =>
    simp only [sortNat]
    exact (insSorted_perm a (sortNat rest)).trans (ih.cons a)

lemma mem_sortNat {x : ℕ} {l : List ℕ} : x ∈ sortNat l ↔ x ∈ l :=
  (sortNat_perm l).mem_iff

lemma nodup_sortNat {l : List ℕ} (h : l.Nodup) : (sortNat l).Nodup :=
  ((sortNat_perm l).nodup_iff).mpr h

lemma mem_unionIndex_left {x : ℕ} {a b : List ℕ} (h : x ∈ a) : x ∈ unionIndex a b := by
  unfold unionIndex
  by_cases he : a = b
  · rw [if_pos he]; exact h
  · rw [if_neg he]
    exact mem_sortNat.mpr (List.mem_append.mpr (Or.inl h))

lemma nodup_unionIndex {a b : List ℕ} (ha : a.Nodup) (hb : b.Nodup) :
    (unionIndex a b).Nodup := by
  unfold unionIndex
  by_cases he : a = b
  · rw [if_pos he]; exact ha
  · rw [if_neg he]
    refine nodup_sortNat (List.Nodup.append ha (hb.filter _) ?_)
    intro x hxa hxf
    have hx := List.of_mem_filter hxf
    simp at hx
    exact hx hxa

/-! ## Column lookup lemmas -/

/-- Looking a label up in a column list built by mapping over the labels
finds the mapped column (first occurrence carries the same value). -/
lemma lookupCol_mapped (labels : List ℕ) (F : ℕ → Column) (c : ℕ) (h : c ∈ labels) :
    lookupCol (labels.map (fun l => (l, F l))) c = some (F c) := by
  induction labels with
  | nil => cases h
  | cons a rest ih =>
    by_cases he : a = c
    · subst he; simp [lookupCol]
    · have h2 : c ∈ rest := by
        rcases List.mem_cons.mp h with h1 | h1
        · exact absurd h1.symm he
        · exact h1
      simp [lookupCol, he, ih h2]

lemma getColD_mapped (idx : List ℕ) (labels : List ℕ) (F : ℕ → Column) (c : ℕ)
    (h : c ∈ labels) :
    getColD ⟨idx, labels.map (fun l => (l, F l))⟩ c = F c := by
  simp [getColD, lookupCol_mapped labels F c h]

lemma colLabels_mapped (idx : List ℕ) (labels : List ℕ) (F : ℕ → Column) :
    colLabels ⟨idx, labels.map (fun l => (l, F l))⟩ = labels := by
  induction labels with
  | nil => rfl
  | cons a rest ih => simpa [colLabels] using ih

lemma lookupCol_setColFirst_ne (cols : List (ℕ × Column)) (c c2 : ℕ) (v : Column)
    (h : c ≠ c2) :
    lookupCol (setColFirst cols c v) c2 = lookupCol cols c2 := by
  induction cols with
  | nil => rfl
  | cons p rest ih =>
    obtain ⟨a, col⟩ := p
    by_cases he : a = c
    · subst he
      simp [setColFirst, lookupCol, h]
    · simp only [setColFirst, if_neg he]
      by_cases ha2 : a = c2
      · simp [lookupCol, ha2]
      · simp [lookupCol, ha2, ih]

lemma getColD_setColFirst_ne (idx : List ℕ) (cols : List (ℕ × Column)) (c c2 : ℕ)
    (v : Column) (h : c ≠ c2) :
    getColD ⟨idx, setColFirst cols c v⟩ c2 = getColD ⟨idx, cols⟩ c2 := by
  simp only [getColD]
  rw [lookupCol_setColFirst_ne cols c c2 v h]

/-- Selecting each value against itself (take the right cell exactly where
the left is NA) returns the column unchanged. -/
lemma zipSelectSelf (vals : List Cell) :
    (vals.zip vals).map (fun p => if p.1.isNone then p.2 else p.1) = vals := by
  induction vals with
  | nil => rfl
  | cons v rest ih =>
    simp only [List.zip_cons_cons, List.map_cons, ih]
    cases v <;> simp

/-- A zipped any-both-non-NA test is the same as a positionwise existence
statement through `listAt`. -/
lemma any_zip_some_iff :
    ∀ (xs ys : List Cell),
      ((xs.zip ys).any (fun p => p.1.isSome && p.2.isSome) = true) ↔
        ∃ i, (listAt none xs i).isSome = true ∧ (listAt none ys i).isSome = true := by
  intro xs
  induction xs with
  | nil =>
    intro ys
    simp [listAt_nil]
  | cons x xt ih =>
    intro ys
    cases ys with
    | nil => simp [listAt_nil]
    | cons y yt =>
      simp only [List.zip_cons_cons, List.any_cons, Bool.or_eq_true, Bool.and_eq_true, ih yt]
      constructor
      · rintro (⟨h1, h2⟩ | ⟨i, h1, h2⟩)
        · exact ⟨0, h1, h2⟩
        · exact ⟨i + 1, h1, h2⟩
      · rintro ⟨i, h1, h2⟩
        cases i with
        | zero => exact Or.inl ⟨h1, h2⟩
        | succ n => exact Or.inr ⟨n, h1, h2⟩

/-! ## Reindexing a frame onto itself is the identity -/

lemma reindexVals_self (idx : List ℕ) (vals : List Cell) (hnd : idx.Nodup)
    (hlen : vals.length = idx.length) :
    reindexVals idx vals idx = vals :=
  map_firstIdx_self none idx vals hnd hlen

lemma cols_reindex_self (idx : List ℕ) (hni : idx.Nodup) :
    ∀ (cols : List (ℕ × Column)), (cols.map Prod.fst).Nodup →
      (∀ p ∈ cols, p.2.values.length = idx.length) →
      (cols.map Prod.fst).map (fun c => (c, reindexColAt ⟨idx, cols⟩ idx c)) = cols := by
  intro cols
  induction cols with
  | nil => intro _ _; rfl
  | cons p rest ih =>
    obtain ⟨c0, col0⟩ := p
    intro hnd hwf
    have hnd2 : c0 ∉ rest.map Prod.fst ∧ (rest.map Prod.fst).Nodup :=
      List.nodup_cons.mp (by simpa using hnd)
    simp only [List.map_cons, List.cons.injEq]
    refine ⟨?_, ?_⟩
    · have hl : lookupCol ((c0, col0) :: rest) c0 = some col0 := by simp [lookupCol]
      simp only [reindexColAt, hl]
      rw [reindexVals_self idx col0.values hni (hwf (c0, col0) (List.mem_cons_self _ _))]
    · have hpt : ∀ c ∈ rest.map Prod.fst,
          (c, reindexColAt ⟨idx, (c0, col0) :: rest⟩ idx c) =
            (c, reindexColAt ⟨idx, rest⟩ idx c) := by
        intro c hc
        have hne : c0 ≠ c := fun he => hnd2.1 (he ▸ hc)
        simp [reindexColAt, lookupCol, hne]
      rw [mapCongrMem _ _ _ hpt]
      exact ih hnd2.2 (fun q hq => hwf q (List.mem_cons_of_mem _ hq))

lemma wfB_lengths {df : DataFrame} (hwf : wfB df = true) :
    ∀ p ∈ df.cols, p.2.values.length = df.index.length := by
  intro p hp
  have := List.all_eq_true.mp hwf p hp
  simpa using this

lemma reindexTo_self (A : DataFrame) (hni : A.index.Nodup)
    (hnc : (colLabels A).Nodup) (hwf : wfB A = true) :
    reindexTo A A.index (colLabels A) = A := by
  have hwf2 := wfB_lengths hwf
  obtain ⟨idx, cols⟩ := A
  simp only [reindexTo, colLabels]
  congr 1
  exact cols_reindex_self idx hni cols (by simpa [colLabels] using hnc)
    (by simpa using hwf2)

/-! ## combine_first idempotence machinery -/

lemma findCommonType_self (d : DType) : findCommonType d d = d := by
  simp [findCommonType]

lemma unionIndex_self (l : List ℕ) : unionIndex l l = l := by
  simp [unionIndex]

lemma alignOuter_self (A : DataFrame) (hni : A.index.Nodup)
    (hnc : (colLabels A).Nodup) (hwf : wfB A = true) :
    alignOuter A A = (A, A) := by
  simp [alignOuter, unionIndex_self, reindexTo_self A hni hnc hwf]

/-- On a column combined with itself, the `combine_first` combiner followed
by the downcast is the identity. -/
lemma combineCol_self (A : DataFrame) (c : ℕ) (hc : c ∈ colLabels A) :
    combineCol A A A (combineFirstCombiner A) none false c = getColD A c := by
  by_cases hna : allNA (getColD A c) = true
  · simp [combineCol, hna]
  · have hnab : allNA (getColD A c) = false := by
      cases h2 : allNA (getColD A c)
      · rfl
      · exact absurd h2 hna
    have hzip : ((getColD A c).values.zip (getColD A c).values).map
        (fun p => if p.1 = none then p.2 else p.1) = (getColD A c).values := by
      have := zipSelectSelf (getColD A c).values
      simpa [Option.isNone_iff_eq_none] using this
    simp [combineCol, hnab, hc, findCommonType_self, combineFirstCombiner,
      hzip, maybeDowncast]

lemma map_label_getColD :
    ∀ (cols : List (ℕ × Column)) (idx : List ℕ), (cols.map Prod.fst).Nodup →
      (cols.map Prod.fst).map (fun c => (c, getColD ⟨idx, cols⟩ c)) = cols := by
  intro cols
  induction cols with
  | nil => intro idx _; rfl
  | cons p rest ih =>
    obtain ⟨c0, col0⟩ := p
    intro idx hnd
    have hnd2 : c0 ∉ rest.map Prod.fst ∧ (rest.map Prod.fst).Nodup :=
      List.nodup_cons.mp (by simpa using hnd)
    simp only [List.map_cons, List.cons.injEq]
    refine ⟨by simp [getColD, lookupCol], ?_⟩
    have hpt : ∀ c ∈ rest.map Prod.fst,
        (c, getColD ⟨idx, (c0, col0) :: rest⟩ c) = (c, getColD ⟨idx, rest⟩ c) := by
      intro c hc
      have hne : c0 ≠ c := fun he => hnd2.1 (he ▸ hc)
      simp [getColD, lookupCol, hne]
    rw [mapCongrMem _ _ _ hpt]
    exact ih idx hnd2.2

/-- C3: for every well-formed table `A` (lengths match, labels unique on
both axes), `A.combine_first(A)` equals `A`: same row index, same column
index, same values — no nulls introduced or removed, no column altered. -/
theorem combine_first_idempotent (A : DataFrame) (hni : A.index.Nodup)
    (hnc : (colLabels A).Nodup) (hwf : wfB A = true) :
    combine_first A A = A := by
  have hal := alignOuter_self A hni hnc hwf
  simp only [combine_first, combine, hal]
  by_cases he : isEmpty A = true
  · simp [he]
  · have he2 : isEmpty A = false := by
      cases h2 : isEmpty A
      · rfl
      · exact absurd h2 he
    simp only [he2, Bool.false_and, Bool.and_self, Bool.false_eq_true, if_false,
      unionIndex_self]
    have hpt : ∀ c ∈ colLabels A,
        (c, combineCol A A A (combineFirstCombiner A) none false c) =
          (c, getColD A c) := by
      intro c hc
      rw [combineCol_self A c hc]
    rw [mapCongrMem _ _ _ hpt]
    obtain ⟨idx, cols⟩ := A
    simp only [colLabels] at hnc ⊢
    congr 1
    exact map_label_getColD cols idx hnc

/-- Witness for C3 at a concrete two-column table containing a null. -/
theorem combine_first_idempotent_witness :
    ([0, 1] : List ℕ).Nodup ∧
    (colLabels (⟨[0, 1], [(0, ⟨DType.dfloat, [some 1, none]⟩),
        (1, ⟨DType.dint, [some 2, some 3]⟩)]⟩ : DataFrame)).Nodup ∧
    wfB (⟨[0, 1], [(0, ⟨DType.dfloat, [some 1, none]⟩),
        (1, ⟨DType.dint, [some 2, some 3]⟩)]⟩ : DataFrame) = true ∧
    combine_first (⟨[0, 1], [(0, ⟨DType.dfloat, [some 1, none]⟩),
        (1, ⟨DType.dint, [some 2, some 3]⟩)]⟩ : DataFrame)
        (⟨[0, 1], [(0, ⟨DType.dfloat, [some 1, none]⟩),
        (1, ⟨DType.dint, [some 2, some 3]⟩)]⟩ : DataFrame)
      = ⟨[0, 1], [(0, ⟨DType.dfloat, [some 1, none]⟩),
        (1, ⟨DType.dint, [some 2, some 3]⟩)]⟩ :=
  ⟨by decide, by decide, by decide,
   combine_first_idempotent _ (by decide) (by decide) (by decide)⟩

/-! ## Per-column behaviour of combine (C4, C5) -/

/-- Outside the two empty-frame shortcuts, the column a `combine` result
stores under a label is exactly one `combineCol` loop iteration. -/
lemma combine_getCol (A B : DataFrame) (f : ℕ → Column → Column → Column)
    (fv : Option ℚ) (ov : Bool) (col : ℕ)
    (h1 : (isEmpty (alignOuter A B).2 &&
      decide ((alignOuter A B).1.index.length = A.index.length)) = false)
    (h2 : (isEmpty A &&
      decide ((alignOuter A B).2.index.length = B.index.length)) = false)
    (hc : col ∈ unionIndex (colLabels (alignOuter A B).1)
      (colLabels (alignOuter A B).2)) :
    getColD (combine A B f fv ov) col =
      combineCol A (alignOuter A B).1 (alignOuter A B).2 f fv ov col := by
  simp only [combine, h1, h2, Bool.false_eq_true, if_false]
  exact getColD_mapped _ _ _ _ hc

/-- C5: with `overwrite=False`, a result column whose aligned right side is
entirely NA is the aligned left column kept verbatim, for every merge
function `f` — in particular `f` is never consulted for that column. -/
theorem combine_no_overwrite_all_na_keeps_left (A B : DataFrame)
    (f : ℕ → Column → Column → Column) (col : ℕ)
    (h1 : (isEmpty (alignOuter A B).2 &&
      decide ((alignOuter A B).1.index.length = A.index.length)) = false)
    (h2 : (isEmpty A &&
      decide ((alignOuter A B).2.index.length = B.index.length)) = false)
    (hc : col ∈ unionIndex (colLabels (alignOuter A B).1)
      (colLabels (alignOuter A B).2))
    (hna : allNA (getColD (alignOuter A B).2 col) = true) :
    getColD (combine A B f none false) col = getColD (alignOuter A B).1 col := by
  rw [combine_getCol A B f none false col h1 h2 hc]
  simp [combineCol, hna]

/-- Witness for C5: the right column is present but all-NA after alignment,
and the merge function that would return the right column is ignored. -/
theorem combine_no_overwrite_all_na_keeps_left_witness :
    (isEmpty (alignOuter (⟨[0], [(0, ⟨DType.dint, [some 1]⟩)]⟩ : DataFrame)
        (⟨[0], [(0, ⟨DType.dfloat, [none]⟩)]⟩ : DataFrame)).2 &&
      decide ((alignOuter (⟨[0], [(0, ⟨DType.dint, [some 1]⟩)]⟩ : DataFrame)
        (⟨[0], [(0, ⟨DType.dfloat, [none]⟩)]⟩ : DataFrame)).1.index.length = 1)) = false ∧
    getColD (combine (⟨[0], [(0, ⟨DType.dint, [some 1]⟩)]⟩ : DataFrame)
        (⟨[0], [(0, ⟨DType.dfloat, [none]⟩)]⟩ : DataFrame)
        (fun _ _ y => y) none false) 0
      = getColD (alignOuter (⟨[0], [(0, ⟨DType.dint, [some 1]⟩)]⟩ : DataFrame)
          (⟨[0], [(0, ⟨DType.dfloat, [none]⟩)]⟩ : DataFrame)).1 0 :=
  ⟨by decide,
   combine_no_overwrite_all_na_keeps_left
     (⟨[0], [(0, ⟨DType.dint, [some 1]⟩)]⟩ : DataFrame)
     (⟨[0], [(0, ⟨DType.dfloat, [none]⟩)]⟩ : DataFrame)
     (fun _ _ y => y) 0 (by decide) (by decide) (by decide) (by decide)⟩

/-- Retagging a column with its own dtype is the identity, so the
conditional promotion in the combine loop is an unconditional `astype`. -/
lemma ite_astype (c : Column) (d : DType) :
    (if c.dtype = d then c else astype c d) = astype c d := by
  by_cases h : c.dtype = d
  · rw [if_pos h]
    obtain ⟨dt, vals⟩ := c
    simp only [astype]
    simpa using h
  · rw [if_neg h]

/-- C4 (amended): for a column present in both inputs and away from the
empty-frame shortcuts, `combine` promotes both aligned columns to their
common type, applies `func`, and hands the result to the downcast with the
LEFT column's pre-promotion dtype as the target — not the narrower of the
two input dtypes. -/
theorem combine_promote_apply_downcast_left (A B : DataFrame)
    (f : ℕ → Column → Column → Column) (col : ℕ)
    (h1 : (isEmpty (alignOuter A B).2 &&
      decide ((alignOuter A B).1.index.length = A.index.length)) = false)
    (h2 : (isEmpty A &&
      decide ((alignOuter A B).2.index.length = B.index.length)) = false)
    (hc : col ∈ unionIndex (colLabels (alignOuter A B).1)
      (colLabels (alignOuter A B).2))
    (hcA : col ∈ colLabels A) :
    getColD (combine A B f none true) col =
      maybeDowncast
        (f col
          (astype (getColD (alignOuter A B).1 col)
            (findCommonType (getColD (alignOuter A B).1 col).dtype
              (getColD (alignOuter A B).2 col).dtype))
          (astype (getColD (alignOuter A B).2 col)
            (findCommonType (getColD (alignOuter A B).1 col).dtype
              (getColD (alignOuter A B).2 col).dtype)))
        (getColD (alignOuter A B).1 col).dtype := by
  rw [combine_getCol A B f none true col h1 h2 hc]
  simp [combineCol, hcA, ite_astype]

/-- Counterexample for C4 as stated: left column float `[3.0]`, right column
int `[4]`, merge takes the right value.  The downcast target is the left
dtype (`float`), so the result stays float even though casting `[4.0]` back
to the narrower of the two input types (`int`) would lose no precision —
the claim predicts an int result column here. -/
theorem combine_downcast_not_narrower_counterexample :
    getColD (combine (⟨[0], [(0, ⟨DType.dfloat, [some 3]⟩)]⟩ : DataFrame)
        (⟨[0], [(0, ⟨DType.dint, [some 4]⟩)]⟩ : DataFrame)
        (fun _ _ y => y) none true) 0
      = ⟨DType.dfloat, [some 4]⟩
    ∧ DType.dfloat ≠ DType.dint
    ∧ maybeDowncast ⟨DType.dfloat, [some 4]⟩ DType.dint = ⟨DType.dint, [some 4]⟩ := by
  refine ⟨by decide, by decide, by decide⟩

/-- Witness for the amended C4 theorem at the counterexample's inputs. -/
theorem combine_promote_apply_downcast_left_witness :
    (0 : ℕ) ∈ colLabels (⟨[0], [(0, ⟨DType.dfloat, [some 3]⟩)]⟩ : DataFrame) ∧
    getColD (combine (⟨[0], [(0, ⟨DType.dfloat, [some 3]⟩)]⟩ : DataFrame)
        (⟨[0], [(0, ⟨DType.dint, [some 4]⟩)]⟩ : DataFrame)
        (fun _ _ y => y) none true) 0
      = maybeDowncast
          ((fun (_ : ℕ) (_ y : Column) => y) 0
            (astype (getColD (alignOuter (⟨[0], [(0, ⟨DType.dfloat, [some 3]⟩)]⟩ : DataFrame)
                (⟨[0], [(0, ⟨DType.dint, [some 4]⟩)]⟩ : DataFrame)).1 0)
              (findCommonType
                (getColD (alignOuter (⟨[0], [(0, ⟨DType.dfloat, [some 3]⟩)]⟩ : DataFrame)
                  (⟨[0], [(0, ⟨DType.dint, [some 4]⟩)]⟩ : DataFrame)).1 0).dtype
                (getColD (alignOuter (⟨[0], [(0, ⟨DType.dfloat, [some 3]⟩)]⟩ : DataFrame)
                  (⟨[0], [(0, ⟨DType.dint, [some 4]⟩)]⟩ : DataFrame)).2 0).dtype))
            (astype (getColD (alignOuter (⟨[0], [(0, ⟨DType.dfloat, [some 3]⟩)]⟩ : DataFrame)
                (⟨[0], [(0, ⟨DType.dint, [some 4]⟩)]⟩ : DataFrame)).2 0)
              (findCommonType
                (getColD (alignOuter (⟨[0], [(0, ⟨DType.dfloat, [some 3]⟩)]⟩ : DataFrame)
                  (⟨[0], [(0, ⟨DType.dint, [some 4]⟩)]⟩ : DataFrame)).1 0).dtype
                (getColD (alignOuter (⟨[0], [(0, ⟨DType.dfloat, [some 3]⟩)]⟩ : DataFrame)
                  (⟨[0], [(0, ⟨DType.dint, [some 4]⟩)]⟩ : DataFrame)).2 0).dtype)))
          (getColD (alignOuter (⟨[0], [(0, ⟨DType.dfloat, [some 3]⟩)]⟩ : DataFrame)
            (⟨[0], [(0, ⟨DType.dint, [some 4]⟩)]⟩ : DataFrame)).1 0).dtype :=
  ⟨by decide,
   combine_promote_apply_downcast_left
     (⟨[0], [(0, ⟨DType.dfloat, [some 3]⟩)]⟩ : DataFrame)
     (⟨[0], [(0, ⟨DType.dint, [some 4]⟩)]⟩ : DataFrame)
     (fun _ _ y => y) 0 (by decide) (by decide) (by decide) (by decide)⟩

/-! ## update lemmas (C1, C6, C9) -/

lemma updateLoop_filter_ok :
    ∀ (labels : List ℕ) (S O : DataFrame) (ov : Bool)
      (f : List Cell → List Bool) (e : UpdateErrors),
      ∃ C, updateLoop labels S O ov (some f) e = Except.ok C := by
  intro labels
  induction labels with
  | nil => intro S O ov f e; exact ⟨S, rfl⟩
  | cons c rest ih =>
    intro S O ov f e
    simp only [updateLoop, updateMask]
    exact ih _ O ov f e

lemma updateLoop_filter_errors_irrel :
    ∀ (labels : List ℕ) (S O : DataFrame) (ov : Bool)
      (f : List Cell → List Bool) (e1 e2 : UpdateErrors),
      updateLoop labels S O ov (some f) e1 = updateLoop labels S O ov (some f) e2 := by
  intro labels
  induction labels with
  | nil => intro S O ov f e1 e2; rfl
  | cons c rest ih =>
    intro S O ov f e1 e2
    simp only [updateLoop, updateMask]
    exact ih _ O ov f e1 e2

/-- C9: when a filter function is supplied, `update` skips the
overlapping-non-null check entirely — the `errors` setting is irrelevant and
the call never fails, even on conflicting non-null data. -/
theorem update_filter_func_never_raises (A B : DataFrame) (ov : Bool)
    (f : List Cell → List Bool) :
    update A B ov (some f) UpdateErrors.raise = update A B ov (some f) UpdateErrors.ignore
    ∧ ∃ C, update A B ov (some f) UpdateErrors.raise = Except.ok C :=
  ⟨updateLoop_filter_errors_irrel _ _ _ _ _ _ _, updateLoop_filter_ok _ _ _ _ _ _⟩

lemma getColD_updateStep_ne (S O : DataFrame) (c c2 : ℕ) (mask : List Bool)
    (h : c ≠ c2) :
    getColD (updateStep S O c mask) c2 = getColD S c2 := by
  rw [updateStep]
  by_cases hm : mask.all (fun b => b) = true
  · rw [if_pos hm]
  · rw [if_neg hm]
    obtain ⟨idx, cols⟩ := S
    exact getColD_setColFirst_ne idx cols c c2 _ h

lemma updateLoop_raise_iff :
    ∀ (labels : List ℕ) (S O : DataFrame) (ov : Bool), labels.Nodup →
      ((∃ e, updateLoop labels S O ov none UpdateErrors.raise = Except.error e) ↔
        ∃ c ∈ labels, ∃ i,
          (listAt none (getColD S c).values i).isSome = true ∧
          (listAt none (getColD O c).values i).isSome = true) := by
  intro labels
  induction labels with
  | nil =>
    intro S O ov _
    constructor
    · rintro ⟨e, he⟩
      simp [updateLoop] at he
    · rintro ⟨c, hc, _⟩
      cases hc
  | cons c rest ih =>
    intro S O ov hnd
    have hnd2 := List.nodup_cons.mp hnd
    cases hA : ((getColD O c).values.zip (getColD S c).values).any
        (fun p => p.1.isSome && p.2.isSome) with
    | true =>
      constructor
      · intro _
        obtain ⟨i, h1, h2⟩ := (any_zip_some_iff _ _).mp hA
        exact ⟨c, List.mem_cons_self c rest, i, h2, h1⟩
      · intro _
        refine ⟨"Data overlaps.", ?_⟩
        simp [updateLoop, updateMask, hA]
    | false =>
      have hred : updateLoop (c :: rest) S O ov none UpdateErrors.raise =
          updateLoop rest
            (updateStep S O c
              (if ov then (getColD O c).values.map (fun v => v.isNone)
               else (getColD S c).values.map (fun v => v.isSome))) O ov none
            UpdateErrors.raise := by
        simp [updateLoop, updateMask, hA]
      have hinv : ∀ c2 ∈ rest,
          getColD (updateStep S O c
            (if ov then (getColD O c).values.map (fun v => v.isNone)
             else (getColD S c).values.map (fun v => v.isSome))) c2 = getColD S c2 := by
        intro c2 hc2
        exact getColD_updateStep_ne S O c c2 _ (fun he => hnd2.1 (he ▸ hc2))
      rw [hred, ih _ O ov hnd2.2]
      constructor
      · rintro ⟨c2, hc2, i, h1, h2⟩
        rw [hinv c2 hc2] at h1
        exact ⟨c2, List.mem_cons_of_mem c hc2, i, h1, h2⟩
      · rintro ⟨c2, hc2, i, h1, h2⟩
        rcases List.mem_cons.mp hc2 with he | hmem
        · subst he
          have hcon : ((getColD O c2).values.zip (getColD S c2).values).any
              (fun p => p.1.isSome && p.2.isSome) = true :=
            (any_zip_some_iff _ _).mpr ⟨i, h2, h1⟩
          rw [hA] at hcon
          cases hcon
        · refine ⟨c2, hmem, i, ?_, h2⟩
          rw [hinv c2 hmem]
          exact h1

/-- C1 (amended): `update(A, B, errors='raise')` fails with the data-overlap
error exactly when, after reindexing `B` onto `A`'s row index and columns,
both sides hold a non-null value at the same position — regardless of
whether the two values have equal content. -/
theorem update_raise_iff_overlap (A B : DataFrame) (hnc : (colLabels A).Nodup) :
    (∃ e, update A B true none UpdateErrors.raise = Except.error e) ↔
      ∃ c ∈ colLabels A, ∃ i,
        (listAt none (getColD A c).values i).isSome = true ∧
        (listAt none (getColD (reindexTo B A.index (colLabels A)) c).values i).isSome
          = true :=
  updateLoop_raise_iff (colLabels A) A (reindexTo B A.index (colLabels A)) true hnc

/-- Witness for the amended C1 at tables with one overlapping column. -/
theorem update_raise_iff_overlap_witness :
    (colLabels (⟨[0], [(5, ⟨DType.dint, [some 1]⟩)]⟩ : DataFrame)).Nodup ∧
    ((∃ e, update (⟨[0], [(5, ⟨DType.dint, [some 1]⟩)]⟩ : DataFrame)
        (⟨[0], [(5, ⟨DType.dint, [some 2]⟩)]⟩ : DataFrame) true none
        UpdateErrors.raise = Except.error e) ↔
      ∃ c ∈ colLabels (⟨[0], [(5, ⟨DType.dint, [some 1]⟩)]⟩ : DataFrame), ∃ i,
        (listAt none (getColD (⟨[0], [(5, ⟨DType.dint, [some 1]⟩)]⟩ : DataFrame) c).values
          i).isSome = true ∧
        (listAt none (getColD (reindexTo (⟨[0], [(5, ⟨DType.dint, [some 2]⟩)]⟩ : DataFrame)
          [0] (colLabels (⟨[0], [(5, ⟨DType.dint, [some 1]⟩)]⟩ : DataFrame))) c).values
          i).isSome = true) :=
  ⟨by decide,
   update_raise_iff_overlap (⟨[0], [(5, ⟨DType.dint, [some 1]⟩)]⟩ : DataFrame)
     (⟨[0], [(5, ⟨DType.dint, [some 2]⟩)]⟩ : DataFrame) (by decide)⟩

/-- Counterexample for C1 as stated: both tables hold the same non-null value
`1` at the same position, so by the claim no error should be raised — but
`update` with `errors='raise'` fails with the data-overlap error anyway (the
code checks only non-nullness, never content). -/
theorem update_raise_equal_content_counterexample :
    (getColD (⟨[0], [(0, ⟨DType.dint, [some 1]⟩)]⟩ : DataFrame) 0).values = [some 1]
    ∧ (getColD (reindexTo (⟨[0], [(0, ⟨DType.dint, [some 1]⟩)]⟩ : DataFrame)
        [0] [0]) 0).values = [some 1]
    ∧ update (⟨[0], [(0, ⟨DType.dint, [some 1]⟩)]⟩ : DataFrame)
        (⟨[0], [(0, ⟨DType.dint, [some 1]⟩)]⟩ : DataFrame) true none UpdateErrors.raise
      = Except.error "Data overlaps." :=
  ⟨by decide, by decide, rfl⟩

/-- C6: with `A = {col: [1, null]}` and `B = {col: [9, 9]}`,
`A.update(B, overwrite=False)` yields `{col: [1, 9]}` and
`A.update(B, overwrite=True)` yields `{col: [9, 9]}`. -/
theorem update_overwrite_flag_example :
    update (⟨[0, 1], [(0, ⟨DType.dfloat, [some 1, none]⟩)]⟩ : DataFrame)
        (⟨[0, 1], [(0, ⟨DType.dint, [some 9, some 9]⟩)]⟩ : DataFrame)
        false none UpdateErrors.ignore
      = Except.ok ⟨[0, 1], [(0, ⟨DType.dfloat, [some 1, some 9]⟩)]⟩
    ∧ update (⟨[0, 1], [(0, ⟨DType.dfloat, [some 1, none]⟩)]⟩ : DataFrame)
        (⟨[0, 1], [(0, ⟨DType.dint, [some 9, some 9]⟩)]⟩ : DataFrame)
        true none UpdateErrors.ignore
      = Except.ok ⟨[0, 1], [(0, ⟨DType.dfloat, [some 9, some 9]⟩)]⟩ :=
  ⟨rfl, rfl⟩

/-! ## Scalar-key selection lemmas (C7) -/

/-- How often a label occurs on the column axis. -/
def countOcc (labels : List ℕ) (k : ℕ) : ℕ :=
  (positionsOf labels k).length

lemma posOf_not_mem {l : List ℕ} {k : ℕ} (h : k ∉ l) : positionsOf l k = [] := by
  induction l with
  | nil => rfl
  | cons a rest ih =>
    have h2 : ¬(a = k) := fun he => h (he ▸ List.mem_cons_self a rest)
    have h3 : k ∉ rest := fun hm => h (List.mem_cons_of_mem a hm)
    simp [positionsOf, h2, ih h3]

lemma posOf_ne_nil {l : List ℕ} {k : ℕ} (h : k ∈ l) : positionsOf l k ≠ [] := by
  induction l with
  | nil => cases h
  | cons a rest ih =>
    by_cases he : a = k
    · simp [positionsOf, he]
    · have h2 : k ∈ rest := by
        rcases List.mem_cons.mp h with h1 | h1
        · exact absurd h1.symm he
        · exact h1
      simp only [positionsOf, if_neg he, ne_eq, List.map_eq_nil_iff]
      exact ih h2

lemma posOf_lt : ∀ (l : List ℕ) (k : ℕ), ∀ i ∈ positionsOf l k, i < l.length := by
  intro l k
  induction l with
  | nil => intro i hi; cases hi
  | cons a rest ih =>
    intro i hi
    by_cases he : a = k
    · rw [positionsOf, if_pos he] at hi
      rcases List.mem_cons.mp hi with h0 | hm
      · subst h0; simp
      · obtain ⟨j, hj, rfl⟩ := List.mem_map.mp hm
        have := ih j hj
        simp only [List.length_cons]
        omega
    · rw [positionsOf, if_neg he] at hi
      obtain ⟨j, hj, rfl⟩ := List.mem_map.mp hi
      have := ih j hj
      simp only [List.length_cons]
      omega

lemma posOf_head_firstIdx :
    ∀ (l : List ℕ) (k p : ℕ) (t : List ℕ),
      positionsOf l k = p :: t → firstIdx l k = some p := by
  intro l
  induction l with
  | nil => intro k p t h; cases h
  | cons a rest ih =>
    intro k p t h
    by_cases he : a = k
    · rw [positionsOf, if_pos he] at h
      injection h with h1 h2
      rw [firstIdx, if_pos he, ← h1]
    · rw [positionsOf, if_neg he] at h
      cases hr : positionsOf rest k with
      | nil => rw [hr] at h; cases h
      | cons p2 t2 =>
        rw [hr, List.map_cons] at h
        injection h with h1 h2
        rw [firstIdx, if_neg he, ih k p2 t2 hr]
        simp [h1]

lemma posOf_label : ∀ (l : List ℕ) (k : ℕ), ∀ i ∈ positionsOf l k, listAt 0 l i = k := by
  intro l k
  induction l with
  | nil => intro i hi; cases hi
  | cons a rest ih =>
    intro i hi
    by_cases he : a = k
    · rw [positionsOf, if_pos he] at hi
      rcases List.mem_cons.mp hi with h0 | hm
      · subst h0; exact he
      · obtain ⟨j, hj, rfl⟩ := List.mem_map.mp hm
        exact ih j hj
    · rw [positionsOf, if_neg he] at hi
      obtain ⟨j, hj, rfl⟩ := List.mem_map.mp hi
      exact ih j hj

lemma nthPair_lt :
    ∀ (cols : List (ℕ × Column)) (i : ℕ), i < cols.length →
      ∃ p, nthPair cols i = some p := by
  intro cols
  induction cols with
  | nil => intro i hi; exact absurd hi (Nat.not_lt_zero i)
  | cons q rest ih =>
    intro i hi
    cases i with
    | zero => exact ⟨q, rfl⟩
    | succ n =>
      refine ih n ?_
      simp only [List.length_cons] at hi
      omega

lemma natAt_map_fst :
    ∀ (cols : List (ℕ × Column)) (i : ℕ) (p : ℕ × Column),
      nthPair cols i = some p → listAt 0 (cols.map Prod.fst) i = p.1 := by
  intro cols
  induction cols with
  | nil => intro i p h; cases h
  | cons q rest ih =>
    intro i p h
    cases i with
    | zero =>
      injection h with h1
      rw [← h1]
      rfl
    | succ n => exact ih n p h

lemma lookupCol_firstIdx :
    ∀ (cols : List (ℕ × Column)) (k : ℕ),
      lookupCol cols k =
        (firstIdx (cols.map Prod.fst) k).bind (fun i => (nthPair cols i).map Prod.snd) := by
  intro cols
  induction cols with
  | nil => intro k; rfl
  | cons q rest ih =>
    intro k
    obtain ⟨c, col⟩ := q
    by_cases he : c = k
    · simp [lookupCol, firstIdx, he, nthPair]
    · simp only [lookupCol, if_neg he, List.map_cons, firstIdx, if_neg he, ih]
      cases hf : firstIdx (rest.map Prod.fst) k with
      | none => simp
      | some j => simp [nthPair]

lemma posOf_len_one_of_nodup :
    ∀ (l : List ℕ), l.Nodup → ∀ k ∈ l, (positionsOf l k).length = 1 := by
  intro l
  induction l with
  | nil => intro _ k hk; cases hk
  | cons a rest ih =>
    intro hnd k hk
    have hnd2 := List.nodup_cons.mp hnd
    by_cases he : a = k
    · subst he
      rw [positionsOf, if_pos rfl, posOf_not_mem hnd2.1]
      rfl
    · have h2 : k ∈ rest := by
        rcases List.mem_cons.mp hk with h1 | h1
        · exact absurd h1.symm he
        · exact h1
      rw [positionsOf, if_neg he, List.length_map]
      exact ih hnd2.2 k h2

lemma filterMap_nthPair_len (cols : List (ℕ × Column)) :
    ∀ (ps : List ℕ), (∀ i ∈ ps, i < cols.length) →
      (ps.filterMap (nthPair cols)).length = ps.length := by
  intro ps
  induction ps with
  | nil => intro _; rfl
  | cons i rest ih =>
    intro hv
    obtain ⟨p, hp⟩ := nthPair_lt cols i (hv i (List.mem_cons_self i rest))
    simp only [List.filterMap_cons, hp, List.length_cons]
    rw [ih (fun j hj => hv j (List.mem_cons_of_mem i hj))]

/-- C7: a scalar key present on a single-level column axis returns the
column itself when it matches exactly one column, and a narrower frame of
all matching columns when the label is duplicated. -/
theorem getitem_scalar_squeeze (df : DataFrame) (key : ℕ)
    (h : key ∈ colLabels df) :
    getitemScalar df key =
      if countOcc (colLabels df) key = 1 then
        Except.ok (GetResult.series df.index (getColD df key))
      else
        Except.ok (GetResult.frame (takeColsAt df (positionsOf (colLabels df) key))) := by
  have hvalid : ∀ i ∈ positionsOf (colLabels df) key, i < df.cols.length := by
    intro i hi
    have := posOf_lt (colLabels df) key i hi
    simpa [colLabels] using this
  have hlen : (takeColsAt df (positionsOf (colLabels df) key)).cols.length =
      countOcc (colLabels df) key :=
    filterMap_nthPair_len df.cols (positionsOf (colLabels df) key) hvalid
  by_cases hu : (colLabels df).Nodup
  · have hcount : countOcc (colLabels df) key = 1 := posOf_len_one_of_nodup _ hu key h
    rw [getitemScalar, if_pos ⟨hu, h⟩, if_pos hcount]
  · have hsc : ¬((colLabels df).Nodup ∧ key ∈ colLabels df) := fun hx => hu hx.1
    rw [getitemScalar, if_neg hsc]
    have hne : positionsOf (colLabels df) key ≠ [] := posOf_ne_nil h
    have hloc : (positionsOf (colLabels df) key).isEmpty = false := by
      cases hpos : positionsOf (colLabels df) key with
      | nil => exact absurd hpos hne
      | cons p t => rfl
    by_cases hone : countOcc (colLabels df) key = 1
    · rw [if_pos hone]
      obtain ⟨p, hp⟩ : ∃ p, positionsOf (colLabels df) key = [p] := by
        cases hpos : positionsOf (colLabels df) key with
        | nil => exact absurd hpos hne
        | cons p t =>
          cases t with
          | nil => exact ⟨p, rfl⟩
          | cons p2 t2 =>
            rw [countOcc, hpos] at hone
            simp at hone
      have hp_lt : p < df.cols.length := hvalid p (by simp [hp])
      obtain ⟨pr, hpr⟩ := nthPair_lt df.cols p hp_lt
      have hfst : pr.1 = key := by
        have h1 := posOf_label (colLabels df) key p (by simp [hp])
        have h2 := natAt_map_fst df.cols p pr hpr
        rw [← h1]
        exact h2.symm ▸ rfl
      have hfirst : firstIdx (colLabels df) key = some p :=
        posOf_head_firstIdx (colLabels df) key p [] hp
      have hget : getColD df key = pr.2 := by
        rw [getColD, lookupCol_firstIdx df.cols key]
        simp only [colLabels] at hfirst
        rw [hfirst]
        simp [hpr]
      have hdata : takeColsAt df (positionsOf (colLabels df) key) =
          ⟨df.index, [pr]⟩ := by
        rw [takeColsAt, hp]
        simp [hpr]
      simp only [hloc, Bool.false_eq_true, if_false, hdata]
      have hget2 : getColD ⟨df.index, [pr]⟩ key = pr.2 := by
        obtain ⟨c, col⟩ := pr
        simp only at hfst
        subst hfst
        simp [getColD, lookupCol]
      simp [hget, hget2]
    · rw [if_neg hone]
      simp only [hloc, Bool.false_eq_true, if_false]
      rw [hlen] at *
      simp [hone, hlen]

/-- Witness for C7 at a frame whose key occurs once among duplicate other
labels (the non-unique, single-match path). -/
theorem getitem_scalar_squeeze_witness :
    (7 : ℕ) ∈ colLabels (⟨[0], [(5, ⟨DType.dint, [some 1]⟩),
        (5, ⟨DType.dint, [some 2]⟩), (7, ⟨DType.dint, [some 3]⟩)]⟩ : DataFrame) ∧
    getitemScalar (⟨[0], [(5, ⟨DType.dint, [some 1]⟩),
        (5, ⟨DType.dint, [some 2]⟩), (7, ⟨DType.dint, [some 3]⟩)]⟩ : DataFrame) 7
      = if countOcc (colLabels (⟨[0], [(5, ⟨DType.dint, [some 1]⟩),
            (5, ⟨DType.dint, [some 2]⟩), (7, ⟨DType.dint, [some 3]⟩)]⟩ : DataFrame)) 7 = 1
        then Except.ok (GetResult.series [0]
          (getColD (⟨[0], [(5, ⟨DType.dint, [some 1]⟩),
            (5, ⟨DType.dint, [some 2]⟩), (7, ⟨DType.dint, [some 3]⟩)]⟩ : DataFrame) 7))
        else Except.ok (GetResult.frame
          (takeColsAt (⟨[0], [(5, ⟨DType.dint, [some 1]⟩),
            (5, ⟨DType.dint, [some 2]⟩), (7, ⟨DType.dint, [some 3]⟩)]⟩ : DataFrame)
            (positionsOf (colLabels (⟨[0], [(5, ⟨DType.dint, [some 1]⟩),
              (5, ⟨DType.dint, [some 2]⟩),
              (7, ⟨DType.dint, [some 3]⟩)]⟩ : DataFrame)) 7))) :=
  ⟨by decide,
   getitem_scalar_squeeze (⟨[0], [(5, ⟨DType.dint, [some 1]⟩),
     (5, ⟨DType.dint, [some 2]⟩), (7, ⟨DType.dint, [some 3]⟩)]⟩ : DataFrame) 7
     (by decide)⟩

/-! ## Boolean-key selection (C8), frame selector (C10), inner align (C2) -/

/-- Reindexing a labeled boolean key onto its own Nodup index returns the
mask unchanged. -/
lemma reindexBoolKey_self (idx : List ℕ) (bs : List Bool) (hnd : idx.Nodup)
    (hlen : bs.length = idx.length) :
    reindexBoolKey idx bs idx = some bs := by
  have hall : idx.all (fun l => decide (l ∈ idx)) = true := by
    rw [List.all_eq_true]
    intro x hx
    simpa using hx
  rw [reindexBoolKey, if_pos hall]
  exact congrArg some (map_firstIdx_self false idx bs hnd hlen)

/-- C8: a bare boolean vector of matching length is a direct mask on the
rows in original order; a bare vector of any other length fails with the
length-mismatch error; a key carrying its own label index is first reindexed
onto the row index, with fully-aligned labels masking the reindexed vector
and any unalignable label failing the call. -/
theorem getitem_bool_key_policy (df : DataFrame) (bs : List Bool) (idx : List ℕ)
    (hnd : idx.Nodup) (hlen : bs.length = idx.length) :
    (bs.length = df.index.length →
      getitemBoolArray df (BoolKey.bare bs) =
        Except.ok (takeRows df (truePositions bs)))
    ∧ (bs.length ≠ df.index.length →
      getitemBoolArray df (BoolKey.bare bs) = Except.error "Item wrong length")
    ∧ ((∀ l ∈ df.index, l ∈ idx) →
      ∃ bs2, reindexBoolKey idx bs df.index = some bs2 ∧
        getitemBoolArray df (BoolKey.labeled idx bs) =
          Except.ok (takeRows df (truePositions bs2)))
    ∧ ((∃ l ∈ df.index, l ∉ idx) →
      getitemBoolArray df (BoolKey.labeled idx bs) =
        Except.error "Unalignable boolean Series provided as indexer") := by
  refine ⟨?_, ?_, ?_, ?_⟩
  · intro h
    simp [getitemBoolArray, h]
  · intro h
    simp [getitemBoolArray, h]
  · intro h
    by_cases he : idx = df.index
    · subst he
      exact ⟨bs, reindexBoolKey_self _ bs hnd hlen, by simp [getitemBoolArray]⟩
    · have hall : df.index.all (fun l => decide (l ∈ idx)) = true := by
        rw [List.all_eq_true]
        intro x hx
        exact decide_eq_true (h x hx)
      refine ⟨df.index.map (fun l =>
          match firstIdx idx l with
          | some i => listAt false bs i
          | none => false), ?_, ?_⟩
      · rw [reindexBoolKey, if_pos hall]
      · simp only [getitemBoolArray, if_neg he]
        rw [reindexBoolKey, if_pos hall]
  · rintro ⟨l, hl, hnotin⟩
    have he : idx ≠ df.index := fun h2 => hnotin (h2 ▸ hl)
    have hall : df.index.all (fun l => decide (l ∈ idx)) = false := by
      cases hB : df.index.all (fun l => decide (l ∈ idx)) with
      | true => exact absurd (of_decide_eq_true (List.all_eq_true.mp hB l hl)) hnotin
      | false => rfl
    rw [getitemBoolArray.eq_def]
    simp only [if_neg he]
    rw [reindexBoolKey, if_neg (by simp [hall])]

/-- Witness for C8 at a two-row frame and a labeled key in reversed order. -/
theorem getitem_bool_key_policy_witness :
    ([20, 10] : List ℕ).Nodup ∧ ([true, false] : List Bool).length = 2 ∧
    (([true, false] : List Bool).length =
        (⟨[10, 20], [(0, ⟨DType.dint, [some 1, some 2]⟩)]⟩ : DataFrame).index.length →
      getitemBoolArray (⟨[10, 20], [(0, ⟨DType.dint, [some 1, some 2]⟩)]⟩ : DataFrame)
          (BoolKey.bare [true, false]) =
        Except.ok (takeRows (⟨[10, 20], [(0, ⟨DType.dint, [some 1, some 2]⟩)]⟩ : DataFrame)
          (truePositions [true, false]))) ∧
    ((∀ l ∈ (⟨[10, 20], [(0, ⟨DType.dint, [some 1, some 2]⟩)]⟩ : DataFrame).index,
        l ∈ ([20, 10] : List ℕ)) →
      ∃ bs2, reindexBoolKey [20, 10] [true, false]
          (⟨[10, 20], [(0, ⟨DType.dint, [some 1, some 2]⟩)]⟩ : DataFrame).index = some bs2 ∧
        getitemBoolArray (⟨[10, 20], [(0, ⟨DType.dint, [some 1, some 2]⟩)]⟩ : DataFrame)
            (BoolKey.labeled [20, 10] [true, false]) =
          Except.ok (takeRows (⟨[10, 20], [(0, ⟨DType.dint, [some 1, some 2]⟩)]⟩ : DataFrame)
            (truePositions bs2))) := by
  refine ⟨by decide, by decide, ?_, ?_⟩
  · exact (getitem_bool_key_policy
      (⟨[10, 20], [(0, ⟨DType.dint, [some 1, some 2]⟩)]⟩ : DataFrame)
      [true, false] [20, 10] (by decide) (by decide)).1
  · exact (getitem_bool_key_policy
      (⟨[10, 20], [(0, ⟨DType.dint, [some 1, some 2]⟩)]⟩ : DataFrame)
      [true, false] [20, 10] (by decide) (by decide)).2.2.1

/-- C10: a selector frame with zero total elements never trips the
boolean-only check — whatever its column dtypes, it is routed to the `where`
path. -/
theorem getitem_frame_empty_selector_ok (self key : DataFrame)
    (h : frameSize key = 0) :
    getitemFrame self key = Except.ok (whereDF self key) := by
  rw [getitemFrame, if_neg]
  exact fun hcon => hcon.1 h

/-- Witness for C10: an empty selector with a non-boolean (integer) column
is accepted. -/
theorem getitem_frame_empty_selector_ok_witness :
    frameSize (⟨[], [(0, ⟨DType.dint, []⟩)]⟩ : DataFrame) = 0 ∧
    frameIsBool (⟨[], [(0, ⟨DType.dint, []⟩)]⟩ : DataFrame) = false ∧
    getitemFrame (⟨[7], [(3, ⟨DType.dint, [some 5]⟩)]⟩ : DataFrame)
        (⟨[], [(0, ⟨DType.dint, []⟩)]⟩ : DataFrame)
      = Except.ok (whereDF (⟨[7], [(3, ⟨DType.dint, [some 5]⟩)]⟩ : DataFrame)
          (⟨[], [(0, ⟨DType.dint, []⟩)]⟩ : DataFrame)) :=
  ⟨by decide, by decide,
   getitem_frame_empty_selector_ok (⟨[7], [(3, ⟨DType.dint, [some 5]⟩)]⟩ : DataFrame)
     (⟨[], [(0, ⟨DType.dint, []⟩)]⟩ : DataFrame) (by decide)⟩

lemma align_inner_aux (b : List ℕ) :
    ∀ (l : List ℕ),
      ((l.zip (get_indexer b l)).filterMap
        (fun p => if p.2 = -1 then none else some p.1)) =
        l.filter (fun x => decide (x ∈ b)) := by
  intro l
  induction l with
  | nil => rfl
  | cons a rest ih =>
    simp only [get_indexer, List.map_cons, List.zip_cons_cons, List.filterMap_cons]
    cases hf : firstIdx b a with
    | none =>
      have hmem : a ∉ b := (firstIdx_none_iff b a).mp hf
      have ih2 := ih
      simp only [get_indexer] at ih2
      simp [hf, hmem, ih2]
    | some i =>
      have hmem : a ∈ b := by
        by_contra hn
        rw [(firstIdx_none_iff b a).mpr hn] at hf
        cases hf
      have hne : ¬(((i : ℕ) : Int) = -1) := by omega
      have ih2 := ih
      simp only [get_indexer] at ih2
      simp [hf, hne, hmem, ih2]

/-- C2: the inner-join alignment result index is exactly the left row
labels that also occur in the right row index, kept in the left frame's
original order (stable, never sorted) — for every pair of frames, monotonic
or not. -/
theorem align_inner_left_order (A B : DataFrame) :
    alignInnerIndex A B = A.index.filter (fun l => decide (l ∈ B.index)) :=
  align_inner_aux B.index A.index

end PandasFrame
